import Mathlib

/-!
Verification of the document ingestion and embedding pipeline.

The development shallowly embeds:
  * the embedding HTTP endpoint (`supabase/functions/embed/index.ts`):
    content cleaning, retry-with-backoff around model invocation,
    dimension normalization, per-row batch processing, response codes;
  * the processing HTTP endpoint (the `process` edge function);
  * the SQL storage trigger `private.handle_storage_update` and the
    `document_sections` schema constants.

Strings are represented as `List Char`; JavaScript numbers stored in
embedding vectors are represented as `ℚ` (the code never performs
arithmetic on them beyond inserting literal zeros, so only equality and
the zero literal matter).  Each external effect (model invocation,
row-update success, select failure) is an explicit oracle parameter.
-/

/-! ### Content cleaning (`embed/index.ts` lines 84-100)

The JS source applies a chain of global regex replacements.  Each step
is embedded as a function on `List Char`; the regexes involved all use
negated single-character classes, so their global leftmost-match
replacement is a deterministic left-to-right scan, which is what the
functions below implement.  The markdown-stripping scans use a fuel
argument equal to the initial length; each step consumes at least one
character and fuel decreases by exactly one, so fuel never runs out. -/

/-- `.replace(/\r\n/g, '\n')`: collapse each CRLF pair to a line feed. -/
def replaceCRLF : List Char → List Char
  | '\r' :: '\n' :: rest => '\n' :: replaceCRLF rest
  | c :: rest => c :: replaceCRLF rest
  | [] => []

/-- `.replace(/\r/g, '\n')`: remaining carriage returns become line feeds. -/
def crToLf (l : List Char) : List Char :=
  l.map (fun c => if c = '\r' then '\n' else c)

/-- Attempt to match the regex `\[([^\]]*)\]\([^)]*\)` at the head of the
list; on success return the captured link text and the remainder after
the match.  The negated classes make greedy matching deterministic. -/
def linkMatch : List Char → Option (List Char × List Char)
  | '[' :: rest =>
    match rest.dropWhile (fun c => c != ']') with
    | ']' :: '(' :: rest2 =>
      match rest2.dropWhile (fun c => c != ')') with
      | ')' :: rest3 => some (rest.takeWhile (fun c => c != ']'), rest3)
      | _ => none
    | _ => none
  | _ => none

/-- `.replace(/\[([^\]]*)\]\([^)]*\)/g, '$1')`: markdown links become their
text.  Left-to-right scan; replacement text is not rescanned. -/
def stripLinksF : Nat → List Char → List Char
  | 0, l => l
  | _ + 1, [] => []
  | fuel + 1, c :: cs =>
    match linkMatch (c :: cs) with
    | some (text, rest) => text ++ stripLinksF fuel rest
    | none => c :: stripLinksF fuel cs

def stripLinks (l : List Char) : List Char := stripLinksF l.length l

/-- Attempt to match `\[[^\]]*\]` at the head; return the remainder. -/
def refMatch : List Char → Option (List Char)
  | '[' :: rest =>
    match rest.dropWhile (fun c => c != ']') with
    | ']' :: after => some after
    | _ => none
  | _ => none

/-- `.replace(/\[[^\]]*\]/g, '')`: remaining markdown references dropped. -/
def stripRefsF : Nat → List Char → List Char
  | 0, l => l
  | _ + 1, [] => []
  | fuel + 1, c :: cs =>
    match refMatch (c :: cs) with
    | some rest => stripRefsF fuel rest
    | none => c :: stripRefsF fuel cs

def stripRefs (l : List Char) : List Char := stripRefsF l.length l

/-- Attempt to match `\([^)]*\)` at the head; return the remainder. -/
def parenMatch : List Char → Option (List Char)
  | '(' :: rest =>
    match rest.dropWhile (fun c => c != ')') with
    | ')' :: after => some after
    | _ => none
  | _ => none

/-- `.replace(/\([^)]*\)/g, '')`: parenthetical content dropped. -/
def stripParensF : Nat → List Char → List Char
  | 0, l => l
  | _ + 1, [] => []
  | fuel + 1, c :: cs =>
    match parenMatch (c :: cs) with
    | some rest => stripParensF fuel rest
    | none => c :: stripParensF fuel cs

def stripParens (l : List Char) : List Char := stripParensF l.length l

/-- Character class `[^\x20-\x7E\n]` (step 6 keeps printable ASCII and
line feeds, deleting everything else). -/
def isPrintableAscii (c : Char) : Bool :=
  decide (0x20 ≤ c.toNat ∧ c.toNat ≤ 0x7E)

/-- Code points of the class `[#*_\x60~]` removed by
`.replace(/[#*_\x60~]/g, '')` (markdown formatting characters). -/
def mdFormattingCodes : List Nat := [0x23, 0x2A, 0x5F, 0x60, 0x7E]

/-- The JavaScript regex `\s` character class (ECMAScript WhiteSpace and
LineTerminator code points), also used by `String.prototype.trim`. -/
def isJsWhitespace (c : Char) : Bool :=
  decide (c ∈ [' ', '\t', '\n', '\x0B', '\x0C', '\r',
      ' ', ' ', ' ', ' ', ' ', ' ',
      '　', '﻿'])
  || decide (0x2000 ≤ c.toNat ∧ c.toNat ≤ 0x200A)

/-- `.replace(/\s+/g, ' ')`: each maximal run of whitespace becomes one
space.  The boolean argument records whether the previous character was
part of a whitespace run. -/
def collapseWsAux : Bool → List Char → List Char
  | _, [] => []
  | prevWs, c :: cs =>
    if isJsWhitespace c then
      if prevWs then collapseWsAux true cs
      else ' ' :: collapseWsAux true cs
    else c :: collapseWsAux false cs

def collapseWs (l : List Char) : List Char := collapseWsAux false l

/-- `.replace(/\n+/g, ' ')`: each maximal run of line feeds becomes one
space. -/
def collapseNlAux : Bool → List Char → List Char
  | _, [] => []
  | prevNl, c :: cs =>
    if c = '\n' then
      if prevNl then collapseNlAux true cs
      else ' ' :: collapseNlAux true cs
    else c :: collapseNlAux false cs

def collapseNl (l : List Char) : List Char := collapseNlAux false l

/-- `String.prototype.trim`: drop whitespace from both ends. -/
def jsTrim (l : List Char) : List Char :=
  ((l.dropWhile isJsWhitespace).reverse.dropWhile isJsWhitespace).reverse

/-- The full cleaning chain of `embed/index.ts` (lines 84-100), including
the final truncation `cleanContent.substring(0, 2000)` applied when the
cleaned text exceeds 2000 characters. -/
def cleanContent (content : List Char) : List Char :=
  let s1 := replaceCRLF content
  let s2 := crToLf s1
  let s3 := stripLinks s2
  let s4 := stripRefs s3
  let s5 := stripParens s4
  let s6 := s5.filter (fun c => isPrintableAscii c || c = '\n')
  let s7 := s6.filter (fun c => !(mdFormattingCodes.contains c.toNat))
  let s8 := collapseWs s7
  let s9 := collapseNl s8
  let s10 := jsTrim s9
  if s10.length > 2000 then s10.take 2000 else s10

/-! ### Dimension normalization (`embed/index.ts` lines 136-148) -/

/-- Target width the code normalizes every model output to. -/
def targetDim : Nat := 1024

/-- Declared width of the `embedding` column of `document_sections` in
the SQL schema: `embedding vector (384)`. -/
def documentSectionsDim : Nat := 384

/-- The dimension-handling block: if the model output length differs
from 1024, slice down to 1024 when longer, otherwise append zeros. -/
def normalizeDim (output : List ℚ) : List ℚ :=
  if output.length ≠ targetDim then
    if output.length > targetDim then output.take targetDim
    else output ++ List.replicate (targetDim - output.length) 0
  else output

/-! ### Retry loop around model invocation (`embed/index.ts` lines 111-163)

The while loop runs while `retryCount < maxRetries` (3).  A successful
`model.run` immediately normalizes the output and breaks.  A failure
increments `retryCount`, rethrows once `retryCount >= maxRetries`, and
otherwise sleeps `3000 * retryCount` milliseconds before the next
attempt.  The model is an oracle mapping the attempt index to `some`
vector (success) or `none` (thrown error).  The embedding returns the
final normalized output (or `none` when the loop rethrows), the number
of model invocations made, and the list of backoff delays waited. -/

def maxRetries : Nat := 3

def retryFrom (oracle : Nat → Option (List ℚ)) :
    Nat → Nat → Option (List ℚ) × Nat × List Nat
  | 0, _ => (none, 0, [])
  | fuel + 1, retryCount =>
    match oracle retryCount with
    | some v => (some (normalizeDim v), 1, [])
    | none =>
      if retryCount + 1 ≥ maxRetries then (none, 1, [])
      else
        let r := retryFrom oracle fuel (retryCount + 1)
        (r.1, r.2.1 + 1, 3000 * (retryCount + 1) :: r.2.2)

def runRetries (oracle : Nat → Option (List ℚ)) :
    Option (List ℚ) × Nat × List Nat :=
  retryFrom oracle maxRetries 0

/-! ### Per-row processing and the batch loop (`embed/index.ts` lines 57-201) -/

/-- A row of the target table as the endpoint sees it: the content
column and the (nullable) embedding column. -/
structure RowData where
  content : List Char
  embedding : Option (List ℚ)
deriving DecidableEq

/-- Body of the `for (const row of rows)` loop for one row: skip on
falsy content, clean, skip when the cleaned content is shorter than 10
characters, run the retry loop, and on success issue the update
(`.eq('id', id)`) unless the update reports an error (`updErr`).  Also
returns the number of model invocations made for this row. -/
def processRow (oracle : Nat → Option (List ℚ)) (updErr : Bool) (id : Nat)
    (content : List Char) (db : Nat → Option RowData) :
    (Nat → Option RowData) × Nat :=
  if content.isEmpty then (db, 0)
  else if (cleanContent content).length < 10 then (db, 0)
  else
    match runRetries oracle with
    | (none, att, _) => (db, att)
    | (some emb, att, _) =>
      if updErr then (db, att)
      else (fun j => if j = id then (db j).map (fun row => ⟨row.content, some emb⟩)
                     else db j, att)

/-- One id of the select
`.select('id, content').in('id', ids).is(embeddingColumn, null)`:
kept only when the row exists and its embedding column is null. -/
def selFun (db : Nat → Option RowData) (i : Nat) : Option (Nat × List Char) :=
  match db i with
  | some r => if r.embedding = none then some (i, r.content) else none
  | none => none

/-- The rows returned by the initial select: one per distinct requested
id whose embedding column is still null. -/
def selectRows (ids : List Nat) (db : Nat → Option RowData) :
    List (Nat × List Char) :=
  ids.dedup.filterMap (selFun db)

/-- The whole batch loop: fold the per-row processing over the selected
rows.  `oracle i k` is the model outcome for row `i` on attempt `k`;
`updErr i` tells whether the update for row `i` reports an error. -/
def runBatch (ids : List Nat) (oracle : Nat → Nat → Option (List ℚ))
    (updErr : Nat → Bool) (db : Nat → Option RowData) :
    Nat → Option RowData :=
  (selectRows ids db).foldl
    (fun d p => (processRow (oracle p.1) (updErr p.1) p.1 p.2 d).1) db

/-! ### The embedding endpoint handler (`embed/index.ts` lines 17-202)

The handler (for a POST request) checks environment configuration and
the Authorization header, runs the select, and either returns 500 with
a JSON error body or runs the batch and returns 204.  `selectError` is
`some e` when the initial select fails with error `e`. -/

def authErrorMsg : String := "No authorization header passed"

def envErrorMsg : String := "Missing environment variables."

def handleEmbed (envOk hasAuth : Bool) (selectError : Option String)
    (ids : List Nat) (oracle : Nat → Nat → Option (List ℚ))
    (updErr : Nat → Bool) (db : Nat → Option RowData) :
    Nat × Option String × (Nat → Option RowData) :=
  if envOk = false then (500, some envErrorMsg, db)
  else if hasAuth = false then (500, some authErrorMsg, db)
  else
    match selectError with
    | some e => (500, some e, db)
    | none => (204, none, runBatch ids oracle updErr db)

/-! ### The processing endpoint handler (`process` edge function)

Checks environment and authorization, looks the document up in
`documents_with_storage_path`, downloads the storage object, chunks it
with `processMarkdown` (a black-box `segment` parameter here), and
inserts one `document_sections` row per section.  `docPath` is the
lookup result (`none` = no row; `some none` = row without storage
path), `download` the storage download result, `insertError` whether
the insert fails. -/

def handleProcess (envOk hasAuth : Bool) (document_id : Nat)
    (docPath : Option (Option String)) (download : Option String)
    (segment : String → List String) (insertError : Bool)
    (sections : List (Nat × String)) :
    Nat × Option String × List (Nat × String) :=
  if envOk = false then (500, some envErrorMsg, sections)
  else if hasAuth = false then (500, some authErrorMsg, sections)
  else
    match docPath with
    | none => (500, some "Failed to find uploaded document", sections)
    | some none => (500, some "Failed to find uploaded document", sections)
    | some (some _) =>
      match download with
      | none => (500, some "Failed to download storage object", sections)
      | some fileContents =>
        if insertError then (500, some "Failed to save document sections", sections)
        else (204, none,
          sections ++ (segment fileContents).map (fun c => (document_id, c)))

/-! ### The storage trigger (`private.handle_storage_update`)

Fires after an insert into `storage.objects`.  Non-`files` buckets are
skipped; otherwise one `documents` row is inserted and one HTTP POST is
issued to the process endpoint carrying the new document id.  `newDocId`
is the identity value generated for the insert; the result pairs the new
`documents` table with the list of HTTP calls `(url, document_id)` made
(the bearer header of the call is elided). -/

structure StorageObject where
  bucket_id : String
  path_tokens : List String
  objId : Nat
  owner : Nat
deriving DecidableEq

structure DocumentRow where
  name : Option String
  storage_object_id : Nat
  created_by : Nat
deriving DecidableEq

def supabase_url : String := "http://kong:8000"

def handle_storage_update (newDocId : Nat) (obj : StorageObject)
    (documents : List DocumentRow) :
    List DocumentRow × List (String × Nat) :=
  if obj.bucket_id ≠ "files" then (documents, [])
  else
    (documents ++ [⟨obj.path_tokens.get? 1, obj.objId, obj.owner⟩],
     [(supabase_url ++ "/functions/v1/process", newDocId)])

/-! ### Derived characterization and concrete fixtures

`rowResult` restates the loop body's effect on its own row as a function
of the row's previous value; it is proved equal to `processRow`'s
diagonal below and is used to state the per-row behaviour of the batch.
The `sample*` definitions are concrete inputs used by witness
theorems. -/

def rowResult (oracle : Nat → Option (List ℚ)) (updErr : Bool)
    (content : List Char) (v : Option RowData) : Option RowData :=
  if content.isEmpty then v
  else if (cleanContent content).length < 10 then v
  else
    match runRetries oracle with
    | (none, _, _) => v
    | (some emb, _, _) =>
      if updErr then v else v.map (fun row => ⟨row.content, some emb⟩)

def sampleContent : List Char :=
  ['h', 'i', ' ', 't', 'h', 'e', 'r', 'e', ' ', 'y', 'o', 'u']

def sampleRow : RowData := ⟨sampleContent, none⟩

def sampleDb : Nat → Option RowData :=
  fun i => if i = 1 ∨ i = 2 then some sampleRow else none

def sampleOracle : Nat → Nat → Option (List ℚ) :=
  fun a k => if a = 1 ∧ k = 2 then some [3] else none

def sampleRowEmbedded : RowData := ⟨sampleContent, some [5]⟩

def sampleDbEmbedded : Nat → Option RowData :=
  fun i => if i = 1 then some sampleRowEmbedded else none

def shortRow : RowData := ⟨['h', 'i'], none⟩

def shortDb : Nat → Option RowData :=
  fun i => if i = 1 then some shortRow else none

/-! ### Helper lemmas -/
theorem retry_attempts_le (oracle : Nat → Option (List ℚ)) :
    (runRetries oracle).2.1 ≤ 3 := by
  rcases h0 : oracle 0 with _ | v0 <;> rcases h1 : oracle 1 with _ | v1 <;>
    rcases h2 : oracle 2 with _ | v2 <;>
      simp [runRetries, retryFrom, maxRetries, h0, h1, h2]

theorem processRow_ne (o : Nat → Option (List ℚ)) (u : Bool) (i : Nat)
    (c : List Char) (d : Nat → Option RowData) (j : Nat) (hj : j ≠ i) :
    (processRow o u i c d).1 j = d j := by
  unfold processRow
  split
  · rfl
  · split
    · rfl
    · rcases hr : runRetries o with ⟨res, att, ds⟩
      rcases res with _ | emb
      · rfl
      · dsimp only
        split
        · rfl
        · simp [hj]

theorem retry_delays_chain (oracle : Nat → Option (List ℚ)) :
    List.Chain' (· < ·) (runRetries oracle).2.2 := by
  rcases h0 : oracle 0 with _ | v0 <;> rcases h1 : oracle 1 with _ | v1 <;>
    rcases h2 : oracle 2 with _ | v2 <;>
      simp [runRetries, retryFrom, maxRetries, h0, h1, h2]

theorem retry_first_success (oracle : Nat → Option (List ℚ)) (k : Nat) (v : List ℚ)
    (hk : k < 3) (hs : oracle k = some v) (hprev : ∀ j, j < k → oracle j = none) :
    (runRetries oracle).1 = some (normalizeDim v) := by
  match k, hk with
  | 0, _ => simp [runRetries, retryFrom, maxRetries, hs]
  | 1, _ =>
    have h0 : oracle 0 = none := hprev 0 (by omega)
    simp [runRetries, retryFrom, maxRetries, h0, hs]
  | 2, _ =>
    have h0 : oracle 0 = none := hprev 0 (by omega)
    have h1 : oracle 1 = none := hprev 1 (by omega)
    simp [runRetries, retryFrom, maxRetries, h0, h1, hs]

theorem retry_all_fail (oracle : Nat → Option (List ℚ))
    (h : ∀ k, k < 3 → oracle k = none) :
    (runRetries oracle).1 = none := by
  simp [runRetries, retryFrom, maxRetries, h 0 (by omega), h 1 (by omega),
    h 2 (by omega)]

theorem processRow_self (o : Nat → Option (List ℚ)) (u : Bool) (i : Nat)
    (c : List Char) (d : Nat → Option RowData) :
    (processRow o u i c d).1 i = rowResult o u c (d i) := by
  unfold processRow rowResult
  split
  · rfl
  · split
    · rfl
    · rcases hr : runRetries o with ⟨res, att, ds⟩
      rcases res with _ | emb
      · rfl
      · dsimp only
        split
        · rfl
        · simp

theorem foldl_batch_ne (oracle : Nat → Nat → Option (List ℚ))
    (updErr : Nat → Bool) :
    ∀ (l : List (Nat × List Char)) (d : Nat → Option RowData) (i : Nat),
      (∀ p ∈ l, p.1 ≠ i) →
      (l.foldl (fun d p => (processRow (oracle p.1) (updErr p.1) p.1 p.2 d).1) d) i
        = d i := by
  intro l
  induction l with
  | nil => intro d i _; rfl
  | cons p l ih =>
    intro d i h
    simp only [List.foldl_cons]
    rw [ih _ i (fun q hq => h q (List.mem_cons_of_mem p hq))]
    exact processRow_ne _ _ _ _ _ _ (fun hip => h p (List.mem_cons_self p l) hip.symm)

theorem foldl_batch_apply (oracle : Nat → Nat → Option (List ℚ))
    (updErr : Nat → Bool) :
    ∀ (l : List (Nat × List Char)), (l.map Prod.fst).Nodup →
      ∀ (d : Nat → Option RowData) (i : Nat),
      (l.foldl (fun d p => (processRow (oracle p.1) (updErr p.1) p.1 p.2 d).1) d) i
        = match l.find? (fun p => p.1 == i) with
          | some p => rowResult (oracle i) (updErr i) p.2 (d i)
          | none => d i := by
  intro l
  induction l with
  | nil => intro _ d i; rfl
  | cons p l ih =>
    intro hnd d i
    simp only [List.map_cons, List.nodup_cons] at hnd
    by_cases hpi : p.1 = i
    · subst hpi
      have hfind : (p :: l).find? (fun q => q.1 == p.1) = some p := by
        simp [List.find?_cons]
      rw [hfind]
      simp only [List.foldl_cons]
      rw [foldl_batch_ne oracle updErr l _ p.1 ?notin]
      case notin =>
        intro q hq hqi
        exact hnd.1 (hqi ▸ List.mem_map_of_mem Prod.fst hq)
      exact processRow_self (oracle p.1) (updErr p.1) p.1 p.2 d
    · have hfind : (p :: l).find? (fun q => q.1 == i)
          = l.find? (fun q => q.1 == i) := by
        simp [List.find?_cons, hpi]
      rw [hfind]
      simp only [List.foldl_cons]
      rw [ih hnd.2]
      rw [processRow_ne _ _ _ _ _ _ (fun h => hpi h.symm)]

theorem selFun_fst (db : Nat → Option RowData) (i : Nat)
    (p : Nat × List Char) (h : selFun db i = some p) : p.1 = i := by
  unfold selFun at h
  rcases hdb : db i with _ | r <;> rw [hdb] at h <;> dsimp only at h
  · exact absurd h (by simp)
  · by_cases he : r.embedding = none
    · rw [if_pos he] at h
      rw [← Option.some_inj.mp h]
    · simp [he] at h

theorem selectAux_keys (db : Nat → Option RowData) :
    ∀ l : List Nat, List.Sublist ((l.filterMap (selFun db)).map Prod.fst) l := by
  intro l
  induction l with
  | nil => simp
  | cons a l ih =>
    rw [List.filterMap_cons]
    rcases h : selFun db a with _ | p
    · exact ih.cons a
    · rw [List.map_cons]
      rw [selFun_fst db a p h]
      exact ih.cons₂ a

theorem selectAux_find (db : Nat → Option RowData) (i : Nat) :
    ∀ l : List Nat, l.Nodup →
      (l.filterMap (selFun db)).find? (fun p => p.1 == i)
        = if i ∈ l then selFun db i else none := by
  intro l
  induction l with
  | nil => simp
  | cons a l ih =>
    intro hnd
    rw [List.nodup_cons] at hnd
    rw [List.filterMap_cons]
    rcases h : selFun db a with _ | p
    · rw [ih hnd.2]
      by_cases hia : i = a
      · subst hia
        simp [hnd.1, h]
      · simp [hia]
    · have hp1 : p.1 = a := selFun_fst db a p h
      by_cases hia : i = a
      · subst hia
        simp [List.find?_cons, hp1, h]
      · rw [List.find?_cons_of_neg]
        · rw [ih hnd.2]
          simp [hia]
        · simp [hp1]
          exact fun hc => hia hc.symm

theorem runBatch_apply (ids : List Nat) (oracle : Nat → Nat → Option (List ℚ))
    (updErr : Nat → Bool) (db : Nat → Option RowData) (i : Nat) :
    runBatch ids oracle updErr db i
      = match (if i ∈ ids then selFun db i else none) with
        | some p => rowResult (oracle i) (updErr i) p.2 (db i)
        | none => db i := by
  unfold runBatch selectRows
  rw [foldl_batch_apply oracle updErr (ids.dedup.filterMap (selFun db))
    (List.Nodup.sublist (selectAux_keys db ids.dedup) (List.nodup_dedup ids)) db i]
  rw [selectAux_find db i ids.dedup (List.nodup_dedup ids)]
  by_cases hmem : i ∈ ids
  · rw [if_pos hmem, if_pos (List.mem_dedup.mpr hmem)]
  · rw [if_neg hmem, if_neg (fun h => hmem (List.mem_dedup.mp h))]

theorem normalizeDim_length (v : List ℚ) :
    (normalizeDim v).length = targetDim := by
  unfold normalizeDim
  by_cases h : v.length = targetDim
  · simp [h]
  · rw [if_pos h]
    by_cases h2 : v.length > targetDim
    · rw [if_pos h2]
      simp [List.length_take]
      omega
    · rw [if_neg h2]
      simp
      omega

theorem normalizeDim_pad (v : List ℚ) (h : v.length ≤ targetDim) :
    normalizeDim v = v ++ List.replicate (targetDim - v.length) 0 := by
  unfold normalizeDim
  by_cases he : v.length = targetDim
  · simp [he]
  · rw [if_pos he, if_neg (by omega)]

theorem normalizeDim_truncate (v : List ℚ) (h : targetDim < v.length) :
    normalizeDim v = v.take targetDim := by
  unfold normalizeDim
  rw [if_pos (by omega), if_pos h]

theorem mem_dropWhile {p : Char → Bool} {x : Char} :
    ∀ {l : List Char}, x ∈ l.dropWhile p → x ∈ l := by
  intro l
  induction l with
  | nil => simp
  | cons a l ih =>
    rw [List.dropWhile_cons]
    split
    · exact fun h => List.mem_cons_of_mem a (ih h)
    · exact id

theorem mem_jsTrim {x : Char} {l : List Char} (h : x ∈ jsTrim l) : x ∈ l := by
  unfold jsTrim at h
  rw [List.mem_reverse] at h
  have h2 := mem_dropWhile h
  rw [List.mem_reverse] at h2
  exact mem_dropWhile h2

theorem mem_collapseWsAux {c : Char} :
    ∀ {b : Bool} {l : List Char}, c ∈ collapseWsAux b l →
      c = ' ' ∨ (c ∈ l ∧ isJsWhitespace c = false) := by
  intro b l
  induction l generalizing b with
  | nil => simp [collapseWsAux]
  | cons a l ih =>
    intro h
    unfold collapseWsAux at h
    by_cases ha : isJsWhitespace a
    · rw [if_pos ha] at h
      rcases b with _ | _
      · rw [if_neg (by simp)] at h
        rcases List.mem_cons.mp h with h1 | h2
        · exact Or.inl h1
        · rcases ih h2 with h3 | h4
          · exact Or.inl h3
          · exact Or.inr ⟨List.mem_cons_of_mem a h4.1, h4.2⟩
      · rw [if_pos rfl] at h
        rcases ih h with h3 | h4
        · exact Or.inl h3
        · exact Or.inr ⟨List.mem_cons_of_mem a h4.1, h4.2⟩
    · rw [if_neg ha] at h
      rcases List.mem_cons.mp h with h1 | h2
      · subst h1
        exact Or.inr ⟨List.mem_cons_self c l, by simpa using ha⟩
      · rcases ih h2 with h3 | h4
        · exact Or.inl h3
        · exact Or.inr ⟨List.mem_cons_of_mem a h4.1, h4.2⟩

theorem mem_collapseNlAux {c : Char} :
    ∀ {b : Bool} {l : List Char}, c ∈ collapseNlAux b l → c = ' ' ∨ c ∈ l := by
  intro b l
  induction l generalizing b with
  | nil => simp [collapseNlAux]
  | cons a l ih =>
    intro h
    unfold collapseNlAux at h
    by_cases ha : a = '\n'
    · rw [if_pos ha] at h
      rcases b with _ | _
      · rw [if_neg (by simp)] at h
        rcases List.mem_cons.mp h with h1 | h2
        · exact Or.inl h1
        · rcases ih h2 with h3 | h4
          · exact Or.inl h3
          · exact Or.inr (List.mem_cons_of_mem a h4)
      · rw [if_pos rfl] at h
        rcases ih h with h3 | h4
        · exact Or.inl h3
        · exact Or.inr (List.mem_cons_of_mem a h4)
    · rw [if_neg ha] at h
      rcases List.mem_cons.mp h with h1 | h2
      · exact Or.inr (h1 ▸ List.mem_cons_self a l)
      · rcases ih h2 with h3 | h4
        · exact Or.inl h3
        · exact Or.inr (List.mem_cons_of_mem a h4)

theorem cleanContent_mem (content : List Char) (c : Char)
    (hc : c ∈ cleanContent content) : 0x20 ≤ c.toNat ∧ c.toNat ≤ 0x7E := by
  unfold cleanContent at hc
  dsimp only at hc
  have hc10 : c ∈ jsTrim (collapseNl (collapseWs
      (((stripParens (stripRefs (stripLinks (crToLf (replaceCRLF content))))).filter
          (fun c => isPrintableAscii c || c = '\n')).filter
        (fun c => !(mdFormattingCodes.contains c.toNat))))) := by
    split at hc
    · exact List.take_subset _ _ hc
    · exact hc
  have hc9 := mem_jsTrim hc10
  rcases mem_collapseNlAux hc9 with hsp | hc8
  · subst hsp
    decide
  rcases mem_collapseWsAux hc8 with hsp | ⟨hc7, hnws⟩
  · subst hsp
    decide
  have hc6 := (List.mem_filter.mp hc7).1
  have hpred := (List.mem_filter.mp hc6).2
  rcases Bool.or_eq_true_iff.mp hpred with hpr | hnl
  · exact of_decide_eq_true hpr
  · exfalso
    have : isJsWhitespace c = true := by
      rw [of_decide_eq_true hnl]
      decide
    rw [this] at hnws
    exact absurd hnws (by simp)

theorem cleanContent_length_le (content : List Char) :
    (cleanContent content).length ≤ 2000 := by
  unfold cleanContent
  dsimp only
  split
  · simp [List.length_take]
  · omega


/-! ### Claim theorems -/

/-- C1: the schema declares `document_sections.embedding` as a 384-wide
vector, but the endpoint normalizes every model output to 1024 entries:
on the model's native 384-wide output the code produces a 1024-wide
vector, so the vector it persists does not have the table's declared
dimensionality (the code comment even claims the schema is 1024-wide
while the migration declares `vector (384)`). -/
theorem embed_width_contradicts_schema :
    (normalizeDim (List.replicate 384 1)).length = targetDim
    ∧ targetDim = 1024
    ∧ documentSectionsDim = 384
    ∧ (normalizeDim (List.replicate 384 1)).length ≠ documentSectionsDim := by
  refine ⟨normalizeDim_length _, rfl, rfl, ?_⟩
  rw [normalizeDim_length]
  decide

/-- C2: the normalization step always returns a vector of length exactly
1024; outputs longer than 1024 are truncated to their first 1024
entries, shorter ones are right-padded with zeros, and a 384-long model
output becomes the original 384 values followed by 640 zeros. -/
theorem embed_normalizeDim_pad_truncate (v : List ℚ) :
    (normalizeDim v).length = 1024
    ∧ (1024 < v.length → normalizeDim v = v.take 1024)
    ∧ (v.length ≤ 1024 → normalizeDim v = v ++ List.replicate (1024 - v.length) 0)
    ∧ (v.length = 384 → normalizeDim v = v ++ List.replicate 640 0) := by
  have ht : targetDim = 1024 := rfl
  refine ⟨?_, ?_, ?_, ?_⟩
  · rw [← ht]
    exact normalizeDim_length v
  · intro h
    rw [← ht]
    exact normalizeDim_truncate v (ht ▸ h)
  · intro h
    rw [normalizeDim_pad v (ht ▸ h), ht]
  · intro h
    rw [normalizeDim_pad v (by rw [ht, h]; norm_num), ht, h]

theorem embed_normalizeDim_pad_truncate_w :
    normalizeDim (List.replicate 384 (1 : ℚ))
      = List.replicate 384 (1 : ℚ) ++ List.replicate 640 0 :=
  (embed_normalizeDim_pad_truncate (List.replicate 384 1)).2.2.2
    (by rw [List.length_replicate])

/-- C3: for every input, the cleaned content is at most 2000 characters
long and consists only of printable ASCII characters (0x20-0x7E); in
particular no newline survives (every whitespace run, newlines included,
was collapsed to a single space).  `cleanContent` applies the source's
steps in their fixed order: normalize line endings, strip markdown
link/reference/parenthetical syntax, drop non-printable/non-ASCII
characters, strip markdown formatting characters, collapse whitespace
and newlines to single spaces, trim, then truncate. -/
theorem embed_cleanContent_bounds (content : List Char) :
    (cleanContent content).length ≤ 2000
    ∧ ∀ c ∈ cleanContent content,
        (0x20 ≤ c.toNat ∧ c.toNat ≤ 0x7E) ∧ c ≠ '\n' := by
  refine ⟨cleanContent_length_le content, fun c hc => ⟨cleanContent_mem content c hc, ?_⟩⟩
  intro hnl
  subst hnl
  exact absurd (cleanContent_mem content '\n' hc).1 (by decide)

theorem embed_cleanContent_bounds_w :
    (cleanContent sampleContent).length ≤ 2000
    ∧ (0x20 ≤ 'h'.toNat ∧ 'h'.toNat ≤ 0x7E) ∧ 'h' ≠ '\n' :=
  ⟨(embed_cleanContent_bounds sampleContent).1,
   (embed_cleanContent_bounds sampleContent).2 'h' (by decide)⟩

/-- C5: the embedding endpoint's response status is 500 exactly when the
environment configuration is missing, the Authorization header is
missing, or the initial select fails; in every other case it is 204,
whatever the per-row outcomes (`oracle`, `updErr`, `db`) are. -/
theorem embed_status_500_iff (envOk hasAuth : Bool) (selectError : Option String)
    (ids : List Nat) (oracle : Nat → Nat → Option (List ℚ)) (updErr : Nat → Bool)
    (db : Nat → Option RowData) :
    (handleEmbed envOk hasAuth selectError ids oracle updErr db).1
      = if envOk = false ∨ hasAuth = false ∨ selectError ≠ none then 500 else 204 := by
  unfold handleEmbed
  rcases envOk with _ | _ <;> rcases hasAuth with _ | _ <;>
    rcases selectError with _ | e <;> simp

/-- C9: a storage-object insert outside the `files` bucket inserts no
document row and makes no HTTP call; an insert in the `files` bucket
appends exactly one document row (named after the second path token)
and issues exactly one HTTP POST to the process endpoint carrying the
new document id. -/
theorem trigger_bucket_filter (newDocId : Nat) (obj : StorageObject)
    (documents : List DocumentRow) :
    (obj.bucket_id ≠ "files" →
      handle_storage_update newDocId obj documents = (documents, []))
    ∧ (obj.bucket_id = "files" →
      handle_storage_update newDocId obj documents
        = (documents ++ [⟨obj.path_tokens.get? 1, obj.objId, obj.owner⟩],
           [(supabase_url ++ "/functions/v1/process", newDocId)])) := by
  constructor
  · intro h
    unfold handle_storage_update
    rw [if_pos h]
  · intro h
    unfold handle_storage_update
    rw [if_neg (by simp [h])]

theorem trigger_bucket_filter_w :
    handle_storage_update 7 ⟨"avatars", ["u", "f.md"], 3, 4⟩ [] = ([], [])
    ∧ handle_storage_update 7 ⟨"files", ["u", "f.md"], 3, 4⟩ []
        = ([⟨some "f.md", 3, 4⟩], [("http://kong:8000/functions/v1/process", 7)]) := by
  refine ⟨(trigger_bucket_filter 7 ⟨"avatars", ["u", "f.md"], 3, 4⟩ []).1 (by decide), ?_⟩
  rw [(trigger_bucket_filter 7 ⟨"files", ["u", "f.md"], 3, 4⟩ []).2 rfl]
  decide

/-- C10: a request with no Authorization header (but with environment
configuration present) is answered 500 with the JSON error body
`No authorization header passed` by both the embedding endpoint and the
processing endpoint, and the store is returned unchanged whatever the
select outcome, rows, model oracle, document lookup, download result or
insert outcome are — the check precedes every database access. -/
theorem no_auth_500 (selectError : Option String) (ids : List Nat)
    (oracle : Nat → Nat → Option (List ℚ)) (updErr : Nat → Bool)
    (db : Nat → Option RowData) (document_id : Nat)
    (docPath : Option (Option String)) (download : Option String)
    (segment : String → List String) (insertError : Bool)
    (sections : List (Nat × String)) :
    handleEmbed true false selectError ids oracle updErr db
      = (500, some authErrorMsg, db)
    ∧ handleProcess true false document_id docPath download segment insertError
        sections
      = (500, some authErrorMsg, sections) :=
  ⟨rfl, rfl⟩

theorem runBatch_preserves_embedded (ids : List Nat)
    (oracle : Nat → Nat → Option (List ℚ)) (updErr : Nat → Bool)
    (db : Nat → Option RowData) (i : Nat) (r : RowData) (v : List ℚ)
    (hdb : db i = some r) (hemb : r.embedding = some v) :
    runBatch ids oracle updErr db i = some r := by
  rw [runBatch_apply]
  by_cases hm : i ∈ ids
  · rw [if_pos hm]
    unfold selFun
    rw [hdb]
    dsimp only
    rw [if_neg (by simp [hemb])]
  · rw [if_neg hm]
    exact hdb

/-- C6 counterexample: a row whose embedding column is already non-null
is not overwritten when its id is requested again: the selection filter
`.is(embeddingColumn, null)` excludes it, so its old vector `[5]`
survives and differs from the newly computed normalized vector. -/
theorem embed_rerun_overwrite_cex :
    runBatch [1] sampleOracle (fun _ => false) sampleDbEmbedded 1
      = some ⟨sampleContent, some [5]⟩
    ∧ (some (⟨sampleContent, some [5]⟩ : RowData)
        ≠ some (⟨sampleContent, some (normalizeDim [3])⟩ : RowData)) := by
  constructor
  · decide
  · intro h
    simp only [Option.some_inj, RowData.mk.injEq, true_and] at h
    have hlen := normalizeDim_length [3]
    rw [← h] at hlen
    exact absurd hlen (by decide)

/-- C6 amended: a row whose id is requested but whose embedding column
is already non-null is excluded by the selection filter
`.is(embeddingColumn, null)`, so re-running the batch leaves its
embedding unchanged rather than overwriting it. -/
theorem embed_rerun_leaves_embedded (ids : List Nat)
    (oracle : Nat → Nat → Option (List ℚ)) (updErr : Nat → Bool)
    (db : Nat → Option RowData) (i : Nat) (r : RowData) (v : List ℚ)
    (hdb : db i = some r) (hemb : r.embedding = some v) :
    runBatch ids oracle updErr db i = some r :=
  runBatch_preserves_embedded ids oracle updErr db i r v hdb hemb

theorem embed_rerun_leaves_embedded_w :
    runBatch [1] sampleOracle (fun _ => false) sampleDbEmbedded 1
      = some sampleRowEmbedded :=
  embed_rerun_leaves_embedded [1] sampleOracle (fun _ => false) sampleDbEmbedded
    1 sampleRowEmbedded [5] (by decide) (by decide)

/-- C7: running the batch a second time leaves every row that has a
non-null embedding after the first run with exactly the value the first
run left it: on such a row, batch-then-batch equals batch. -/
theorem embed_batch_idempotent (ids : List Nat)
    (oracle : Nat → Nat → Option (List ℚ)) (updErr : Nat → Bool)
    (db : Nat → Option RowData) (i : Nat) (r : RowData) (v : List ℚ)
    (h1 : runBatch ids oracle updErr db i = some r)
    (hemb : r.embedding = some v) :
    runBatch ids oracle updErr (runBatch ids oracle updErr db) i
      = runBatch ids oracle updErr db i := by
  rw [h1]
  exact runBatch_preserves_embedded ids oracle updErr _ i r v h1 hemb

theorem embed_batch_idempotent_w :
    runBatch [1] sampleOracle (fun _ => false)
        (runBatch [1] sampleOracle (fun _ => false) sampleDbEmbedded) 1
      = runBatch [1] sampleOracle (fun _ => false) sampleDbEmbedded 1 :=
  embed_batch_idempotent [1] sampleOracle (fun _ => false) sampleDbEmbedded 1
    sampleRowEmbedded [5] (by decide) (by decide)

/-- C8: a selected row whose cleaned content is shorter than 10
characters is skipped before any model invocation (zero attempts are
made for it) and no write is issued: its embedding column keeps its
null value. -/
theorem embed_short_content_skip (ids : List Nat)
    (oracle : Nat → Nat → Option (List ℚ)) (updErr : Nat → Bool)
    (db : Nat → Option RowData) (i : Nat) (r : RowData)
    (hdb : db i = some r) (hemb : r.embedding = none)
    (hshort : (cleanContent r.content).length < 10) :
    runBatch ids oracle updErr db i = some r
    ∧ (processRow (oracle i) (updErr i) i r.content db).2 = 0 := by
  constructor
  · rw [runBatch_apply]
    by_cases hm : i ∈ ids
    · rw [if_pos hm]
      unfold selFun
      rw [hdb]
      dsimp only
      rw [if_pos hemb]
      dsimp only
      unfold rowResult
      by_cases hce : r.content.isEmpty
      · rw [if_pos hce]
      · rw [if_neg hce, if_pos hshort]
    · rw [if_neg hm]
      exact hdb
  · simp [processRow, hshort]

/-- C4: the model is invoked at most 3 times per row, with strictly
increasing backoff delays between attempts; if some attempt at or before
the third succeeds (all earlier ones failing), the normalized embedding
is persisted for that row; if all 3 attempts fail, that row alone is
left unchanged, the endpoint still answers 204, and every other row's
outcome is as if this row's model outcomes were arbitrary. -/
theorem embed_retry_batch (ids : List Nat) (oracle : Nat → Nat → Option (List ℚ))
    (updErr : Nat → Bool) (db : Nat → Option RowData) (i : Nat) (r : RowData) :
    (runRetries (oracle i)).2.1 ≤ 3
    ∧ List.Chain' (· < ·) (runRetries (oracle i)).2.2
    ∧ (db i = some r → r.embedding = none → i ∈ ids → r.content ≠ []
        → 10 ≤ (cleanContent r.content).length → updErr i = false →
        (∀ k v, k < 3 → oracle i k = some v → (∀ j, j < k → oracle i j = none) →
          runBatch ids oracle updErr db i
            = some ⟨r.content, some (normalizeDim v)⟩)
        ∧ ((∀ k, k < 3 → oracle i k = none) →
            runBatch ids oracle updErr db i = some r
            ∧ (handleEmbed true true none ids oracle updErr db).1 = 204
            ∧ ∀ (g : Nat → Option (List ℚ)) (j : Nat), j ≠ i →
                runBatch ids oracle updErr db j
                  = runBatch ids (fun a => if a = i then g else oracle a)
                      updErr db j)) := by
  refine ⟨retry_attempts_le (oracle i), retry_delays_chain (oracle i), ?_⟩
  intro hdb hemb hm hne hlen hupd
  have hnemp : ¬(r.content.isEmpty = true) := by
    simp [List.isEmpty_iff, hne]
  have hsel : selFun db i = some (i, r.content) := by
    unfold selFun
    rw [hdb]
    dsimp only
    rw [if_pos hemb]
  constructor
  · intro k v hk hs hprev
    have hres := retry_first_success (oracle i) k v hk hs hprev
    rw [runBatch_apply, if_pos hm, hsel]
    dsimp only
    unfold rowResult
    rw [if_neg hnemp, if_neg (by omega)]
    rcases hrr : runRetries (oracle i) with ⟨res, att, ds⟩
    rw [hrr] at hres
    dsimp only at hres
    subst hres
    dsimp only
    rw [if_neg (by simp [hupd]), hdb]
    rfl
  · intro hall
    have hres := retry_all_fail (oracle i) hall
    refine ⟨?_, rfl, ?_⟩
    · rw [runBatch_apply, if_pos hm, hsel]
      dsimp only
      unfold rowResult
      rw [if_neg hnemp, if_neg (by omega)]
      rcases hrr : runRetries (oracle i) with ⟨res, att, ds⟩
      rw [hrr] at hres
      dsimp only at hres
      subst hres
      exact hdb
    · intro g j hj
      rw [runBatch_apply, runBatch_apply]
      rw [if_neg hj]

theorem embed_retry_batch_w :
    runBatch [1, 2] sampleOracle (fun _ => false) sampleDb 1
      = some ⟨sampleContent, some (normalizeDim [3])⟩
    ∧ runBatch [1, 2] sampleOracle (fun _ => false) sampleDb 2 = some sampleRow
    ∧ (handleEmbed true true none [1, 2] sampleOracle (fun _ => false) sampleDb).1
      = 204 := by
  have h1 := ((embed_retry_batch [1, 2] sampleOracle (fun _ => false) sampleDb
      1 sampleRow).2.2 (by decide) (by decide) (by decide) (by decide)
      (by decide) rfl).1 2 [3] (by omega) (by decide) (by decide)
  have h2 := ((embed_retry_batch [1, 2] sampleOracle (fun _ => false) sampleDb
      2 sampleRow).2.2 (by decide) (by decide) (by decide) (by decide)
      (by decide) rfl).2 (by decide)
  exact ⟨h1, h2.1, h2.2.1⟩

theorem embed_short_content_skip_w :
    runBatch [1] sampleOracle (fun _ => false) shortDb 1 = some shortRow
    ∧ (processRow (sampleOracle 1) false 1 shortRow.content shortDb).2 = 0 :=
  embed_short_content_skip [1] sampleOracle (fun _ => false) shortDb 1 shortRow
    (by decide) (by decide) (by decide)
